import Mathlib

/-
Shallow embedding of lib/models/addon.js (the ember-cli Addon model).

Modelling conventions, stated once here:

* Filesystem paths are POSIX strings.  path.join(a, b) is modelled as
  a ++ "/" ++ b (no normalization); path.join raises a TypeError when one
  of its arguments is not a string (Node 0.10+, the runtime this code
  targets), modelled as an Except error.
* Broccoli trees are opaque, lazily evaluated values; the code only ever
  builds them from a fixed set of collaborator operators
  (merge-trees, custom-static-compiler pickFiles, preprocessors,
  broccoli-concat, broccoli-file-mover, broccoli-jshint, reexport,
  es6-concatenator).  They are embedded as a symbolic syntax tree whose
  constructors carry exactly the option values the source passes.
* JavaScript object maps with string keys (the import whitelist,
  treePaths, includedModules results) are embedded as insertion-ordered
  association lists; property write is update-in-place when the key is
  present, append otherwise (the semantics of lodash assign used by the
  source and of plain JS property assignment).
* JS truthiness on optional strings: undefined and the empty string are
  falsy, every other string is truthy.
* fs.existsSync and the glob over the addon directory are oracles
  supplied by an Env value; existsSync receives exactly the string the
  source passes it (in particular a relative path stays relative, it is
  the oracle that interprets it against the process working directory).
* Source files discovered by the glob are represented as a stem
  (path relative to the addon tree, extension stripped) plus an
  extension; the glob pattern built by the source from the registry
  extensions matches a file exactly when its extension is one of the
  registry extensions for type js.
* this.app (bound once via included(app)) is passed explicitly as an
  AppState value; app.options.jshintrc.app and app.options.wrapInEval
  are flattened into that record.
* moduleName() memoizes into this.modulePrefix.  The stateful call is
  embedded as moduleNameCall; defs that only need the returned value use
  moduleNamePure, the first projection, which is value-equal on every
  state (memoization is value-transparent, proved in the C7 theorem).
* The lazily required build packages (_requireBuildPackages) only cache
  module references; the flag update is observationally irrelevant and
  treated as a no-op.
-/

namespace EmberAddon

/-- JS truthiness of an optional string: undefined (none) and the empty
string are falsy. -/
def truthyStr : Option String → Bool
  | none => false
  | some s => !(s == "")

/-- A whitespace character as matched by the JS regex backslash-s
(ASCII range). -/
def jsIsWs (c : Char) : Bool :=
  c == ' ' || c == '\t' || c == '\n' || c == '\r' || c == '\x0b' || c == '\x0c'

/-- One character of name.toLowerCase().replace(whitespace, hyphen):
whitespace becomes a hyphen, everything else is lowercased. -/
def normChar (c : Char) : Char :=
  if jsIsWs c then '-' else c.toLower

/-- name.toLowerCase().replace(whitespace regex, hyphen), the slug
computed by moduleName(). -/
def normalizeName (s : String) : String :=
  String.mk (s.data.map normChar)

/-- Association list embedding of a JS string-keyed object mapping
module names to export lists (the import whitelist shape). -/
abbrev WL : Type := List (String × List String)

/-- JS property read on an insertion-ordered object. -/
def wlLookup : WL → String → Option (List String)
  | [], _ => none
  | (k, v) :: rest, k' => if k = k' then some v else wlLookup rest k'

/-- JS property write: update in place when the key is present
(insertion order kept), append otherwise.  This is the per-key step of
lodash assign. -/
def assignEntry : WL → String → List String → WL
  | [], k, v => [(k, v)]
  | (k', v') :: rest, k, v =>
    if k' = k then (k', v) :: rest else (k', v') :: assignEntry rest k v

/-- lodash assign(dest, src): every key of src written into dest in
order, overwriting values at existing keys. -/
def assignList (dest : WL) (src : WL) : WL :=
  src.foldl (fun acc p => assignEntry acc p.1 p.2) dest

/-- String-valued JS object (treePaths, treeForMethods shape). -/
def lookupStr : List (String × String) → String → Option String
  | [], _ => none
  | (k, v) :: rest, k' => if k = k' then some v else lookupStr rest k'

/-- A file found under the addon tree by the glob: path relative to the
tree with the extension split off. -/
structure SrcFile where
  stem : String
  ext : String
deriving DecidableEq

/-- The project argument of the Addon constructor (opaque to the model;
carries a tag so that distinct projects exist). -/
structure Project where
  tag : String
deriving DecidableEq

/-- The process-level and filesystem context an addon runs in. -/
structure Env where
  isDev : Bool
  existsSync : String → Bool
  globFiles : String → List SrcFile

/-- The owning application (bound via included(app)), with the fields
addon.js reads from it. -/
structure AppState where
  name : String
  importWhitelist : WL
  wrapInEval : Bool
  hinting : Bool
  jshintrcApp : String

/-- Mutable per-instance state of an Addon object. -/
structure AddonState where
  name : String
  root : String
  project : Project
  jsExtensions : List String
  modulePrefix : Option String
  treePaths : List (String × String)
  treeForMethods : List (String × String)
  didRequiredBuildPackages : Bool

/-- The treePaths literal set by the Addon constructor. -/
def fixedTreePaths : List (String × String) :=
  [("app", "app"),
   ("styles", "app/styles"),
   ("templates", "app/templates"),
   ("addon", "addon"),
   ("addon-styles", "addon/styles"),
   ("addon-templates", "addon/templates"),
   ("vendor", "vendor"),
   ("test-support", "test-support"),
   ("public", "public")]

/-- The treeForMethods literal set by the Addon constructor. -/
def fixedTreeForMethods : List (String × String) :=
  [("app", "treeForApp"),
   ("styles", "treeForStyles"),
   ("templates", "treeForTemplates"),
   ("addon", "treeForAddon"),
   ("vendor", "treeForVendor"),
   ("test-support", "treeForTestSupport"),
   ("public", "treeForPublic")]

/-- The Addon constructor: binds project, sets the fixed tree maps and
then throws a SilentError when this.name (supplied by the subclass
prototype, hence an Option) is falsy. -/
def addonInit (protoName : Option String) (root : String)
    (jsExtensions : List String) (project : Project) :
    Except String AddonState :=
  if truthyStr protoName then
    Except.ok
      { name := protoName.getD ""
        root := root
        project := project
        jsExtensions := jsExtensions
        modulePrefix := none
        treePaths := fixedTreePaths
        treeForMethods := fixedTreeForMethods
        didRequiredBuildPackages := false }
  else Except.error "An addon must define a name property."

/-- moduleName(): memoizes the slug of this.name into this.modulePrefix
on first (truthy-prefix-free) call; returns value and updated state. -/
def moduleNameCall (a : AddonState) : String × AddonState :=
  if truthyStr a.modulePrefix then (a.modulePrefix.getD "", a)
  else
    let p := normalizeName a.name
    (p, { a with modulePrefix := some p })

/-- The value moduleName() returns on the given state. -/
def moduleNamePure (a : AddonState) : String :=
  (moduleNameCall a).1

/-- Symbolic broccoli tree built by the addon model; each constructor
records one collaborator call with the option values the source passes. -/
inductive Tree where
  | src (path : String)
  | unwatched (path : String)
  | merge (trees : List Tree)
  | pick (t : Tree) (srcDir : String) (destDir : String)
      (files : Option (List String)) (allowEmpty : Bool)
  | preJs (t : Tree) (srcDir : String) (destDir : String)
  | preCss (t : Tree) (srcDir : String) (destDir : String)
  | preTemplates (t : Tree)
  | concat (t : Tree) (inputFiles : List String) (outputFile : String)
      (allowNone : Bool)
  | moveFile (t : Tree) (srcFile : String) (destFile : String)
  | jshint (t : Tree) (jshintrcPath : String) (descr : String)
  | reexportShim (name : String) (outputFile : String)
  | es6 (t : Tree) (ignoredModules : List String)
      (inputFiles : List String) (wrapInEval : Bool) (outputFile : String)
      (legacyFilesToAppend : List String)

/-- Runtime errors the embedded code can raise. -/
inductive JsError where
  | typeError (msg : String)
deriving DecidableEq

/-- The TypeError Node path.join raises when handed a non-string
(here: an undefined treePaths entry). -/
def pathJoinError : JsError :=
  JsError.typeError "Arguments to path.join must be strings"

/-- path.join on two strings (POSIX, no normalization needed by the
paths the source builds). -/
def joinPath (a b : String) : String := a ++ "/" ++ b

/-- _unwatchedTreeGenerator / treeGenerator: a developing addon hands
the raw directory path to broccoli (watched), otherwise an unwatched
read-only handle. -/
def treeGenerator (env : Env) (dir : String) : Tree :=
  if env.isDev then Tree.src dir else Tree.unwatched dir

/-- _jsFileGlob(): glob built from the registry extensions for js. -/
def jsFileGlob (a : AddonState) : String :=
  "**/*.+(" ++ String.intercalate "|" a.jsExtensions ++ ")"

/-- addonJsFiles(tree): pickFiles with the js glob into moduleName(),
then preprocessJs rooted at this.name. -/
def addonJsFiles (a : AddonState) (tree : Tree) : Tree :=
  Tree.preJs
    (Tree.pick tree "/" (moduleNamePure a) (some [jsFileGlob a]) true)
    "/" a.name

/-- path.join(this.root, this.treePaths of addon), the addon-source
directory (treePaths is constructor-fixed, so the key is present on
every constructed instance). -/
def addonTreePath (a : AddonState) : String :=
  joinPath a.root ((lookupStr a.treePaths "addon").getD "")

/-- The stems of the files under the addon-source tree matching the js
glob (glob result with the tree path replaced by nothing and the
extension sliced off). -/
def matchedStems (env : Env) (a : AddonState) : List String :=
  ((env.globFiles (addonTreePath a)).filter
    (fun f => a.jsExtensions.contains f.ext)).map SrcFile.stem

/-- The reduce inside includedModules(): each matched file keyed as
moduleName/stem with export list [default]. -/
def buildIncluded (mn : String) (stems : List String) : WL :=
  stems.foldl (fun acc st => assignEntry acc (mn ++ "/" ++ st) ["default"]) []

/-- includedModules(): the reduce over the glob matches, plus the bare
moduleName alias when a moduleName/index module was produced. -/
def includedModules (env : Env) (a : AddonState) : WL :=
  if (wlLookup (buildIncluded (moduleNamePure a) (matchedStems env a))
      (moduleNamePure a ++ "/index")).isSome then
    assignEntry (buildIncluded (moduleNamePure a) (matchedStems env a))
      (moduleNamePure a) ["default"]
  else buildIncluded (moduleNamePure a) (matchedStems env a)

/-- treeForPublic(tree): pickFiles everything into a directory named
after moduleName(). -/
def treeForPublic (a : AddonState) (tree : Tree) : Tree :=
  Tree.pick tree "/" ("/" ++ moduleNamePure a) none false

/-- compileStyles(tree): when a tree is given, preprocessCss rooted at
slash then rename the owning app-named css file to the addon-named one. -/
def compileStyles (a : AddonState) (app : AppState) (tree : Option Tree) :
    Option Tree :=
  match tree with
  | none => none
  | some t =>
    let processedStyles := Tree.preCss t "/" "/"
    some (Tree.moveFile processedStyles
      ("/" ++ app.name ++ ".css") ("/" ++ a.name ++ ".css"))

/-- compileTemplates(tree): standard templates under name/templates,
pod templates (files named template.*) under name/, merged and run
through the template preprocessor. -/
def compileTemplates (a : AddonState) (tree : Option Tree) : Option Tree :=
  match tree with
  | none => none
  | some t =>
    let standardTemplates := Tree.pick t "/" (a.name ++ "/templates") none false
    let podTemplates :=
      Tree.pick t "/" (a.name ++ "/") (some ["**/template.*"]) true
    some (Tree.preTemplates (Tree.merge [standardTemplates, podTemplates]))

/-- _treeFor for the categories reached from inside compileAddon and
treeForAddon (addon-styles, addon-templates): join the treePaths entry
onto root, wrap when the directory exists.  On constructor-built
instances these categories have no tree-hook method, so no hook
dispatch happens here. -/
def treeForBase (env : Env) (a : AddonState) (name : String) :
    Except JsError (Option Tree) :=
  match lookupStr a.treePaths name with
  | none => Except.error pathJoinError
  | some rel =>
    let treePath := joinPath a.root rel
    if env.existsSync treePath then
      Except.ok (some (treeGenerator env treePath))
    else Except.ok none

/-- compileAddon(tree): short-circuits when includedModules() is empty;
otherwise assembles the js, template and reexport branches, links them
with the es6 concatenator (ignoring every whitelisted module plus the
bare moduleName), and only then assigns includedModules() into the
owning app import whitelist. -/
def compileAddon (env : Env) (a : AddonState) (app : AppState)
    (tree : Tree) : Except JsError (Option Tree × AppState) :=
  if (includedModules env a).length = 0 then Except.ok (none, app)
  else
    let addonJs := addonJsFiles a tree
    match treeForBase env a "addon-templates" with
    | Except.error e => Except.error e
    | Except.ok tt =>
      let templatesTree := compileTemplates a tt
      let reexported := Tree.reexportShim a.name "__reexport.js"
      let trees := [some addonJs, templatesTree, some reexported].filterMap id
      let es6Tree := Tree.es6 (Tree.merge trees)
        (app.importWhitelist.map Prod.fst ++ [moduleNamePure a])
        [a.name ++ "/**/*.js"] app.wrapInEval ("/" ++ a.name ++ ".js")
        ["__reexport.js"]
      Except.ok (some es6Tree,
        { app with importWhitelist :=
            assignList app.importWhitelist (includedModules env a) })

/-- treeForAddon(tree): compileAddon, then compileStyles of the
addon-styles category, the js half concatenated into name.js, all
merged. -/
def treeForAddon (env : Env) (a : AddonState) (app : AppState)
    (tree : Tree) : Except JsError (Tree × AppState) :=
  match compileAddon env a app tree with
  | Except.error e => Except.error e
  | Except.ok (addonTreeO, app1) =>
    match treeForBase env a "addon-styles" with
    | Except.error e => Except.error e
    | Except.ok st =>
      let stylesTree := compileStyles a app1 st
      let jsTree := addonTreeO.map (fun t =>
        Tree.concat t ["**/*.js"] ("/" ++ a.name ++ ".js") true)
      Except.ok (Tree.merge ([jsTree, stylesTree].filterMap id), app1)

/-- jshintAddonTree(): existence check on the RELATIVE treePaths entry
for addon (not joined onto root), then jshint of the addon js files
with the owning app jshintrc, relocated under this.name/tests/. -/
def jshintAddonTree (env : Env) (a : AddonState) (app : AppState) :
    Option Tree :=
  if env.existsSync ((lookupStr a.treePaths "addon").getD "") then
    some (Tree.pick
      (Tree.jshint
        (addonJsFiles a (Tree.src ((lookupStr a.treePaths "addon").getD "")))
        app.jshintrcApp "JSHint - Addon")
      "/" (a.name ++ "/tests/") none false)
  else none

/-- _treeFor(name): path.join(root, treePaths entry) — a TypeError when
the entry is undefined — existence check, watched/unwatched wrap, then
the tree-hook dispatch (on the base prototype the only defined hooks
are treeForAddon and treeForPublic). -/
def _treeFor (env : Env) (a : AddonState) (app : AppState) (name : String) :
    Except JsError (Option Tree × AppState) :=
  match lookupStr a.treePaths name with
  | none => Except.error pathJoinError
  | some rel =>
    let treePath := joinPath a.root rel
    if env.existsSync treePath then
      let t := treeGenerator env treePath
      match lookupStr a.treeForMethods name with
      | some m =>
        if m = "treeForAddon" then
          match treeForAddon env a app t with
          | Except.error e => Except.error e
          | Except.ok (t2, app2) => Except.ok (some t2, app2)
        else if m = "treeForPublic" then
          Except.ok (some (treeForPublic a t), app)
        else Except.ok (some t, app)
      | none => Except.ok (some t, app)
    else Except.ok (none, app)

/-- treeFor(name): the _treeFor branch, plus the jshint diagnostic
branch when developing with hinting on and name is app, merged after
dropping the missing branches. -/
def treeFor (env : Env) (a : AddonState) (app : AppState) (name : String) :
    Except JsError (Tree × AppState) :=
  match _treeFor env a app name with
  | Except.error e => Except.error e
  | Except.ok (ot, app1) =>
    let base := match ot with
      | some t => [t]
      | none => []
    let trees := base ++
      (if env.isDev && app1.hinting && name = "app" then
        (jshintAddonTree env a app1).toList
      else [])
    Except.ok (Tree.merge trees, app1)

/-- The manifest object under the ember-addon key of package.json. -/
structure EmberAddonObj where
  main : Option String
deriving DecidableEq

/-- The package.json fields Addon.resolvePath and Addon.lookup read. -/
structure Pkg where
  name : String
  emberAddonMain : Option String
  emberAddon : Option EmberAddonObj
deriving DecidableEq

/-- An addon reference: its package manifest and its directory. -/
structure AddonRef where
  pkg : Pkg
  path : String
deriving DecidableEq

/-- The characters of the basename (after the last slash). -/
def baseNameChars (cs : List Char) : List Char :=
  (cs.reverse.takeWhile (fun c => !(c == '/'))).reverse

/-- Whether path.extname of the string is nonempty: the basename has a
dot at some position past the first character. -/
def hasExtname (s : String) : Bool :=
  match baseNameChars s.data with
  | [] => false
  | _ :: rest => rest.contains '.'

/-- The js-extension default resolvePath applies: append .js exactly
when the path has no extension. -/
def withJsExt (s : String) : String :=
  if hasExtname s then s else s ++ ".js"

/-- Whether a path string is absolute (leading slash). -/
def isAbsolutePath (s : String) : Bool :=
  match s.data with
  | [] => false
  | c :: _ => c == '/'

/-- path.resolve(dir, main) for the cases the source exercises: an
absolute main wins, otherwise it is joined onto dir. -/
def pathResolve (dir main : String) : String :=
  if isAbsolutePath main then main else joinPath dir main

/-- path.dirname. -/
def dirnameStr (s : String) : String :=
  let cs := s.data
  if cs.contains '/' then
    let pre := ((cs.reverse.dropWhile (fun c => !(c == '/'))).drop 1).reverse
    if pre.isEmpty then "/" else String.mk pre
  else "."

/-- Result of Addon.resolvePath: the resolved entry path and whether
the ember-addon-main deprecation notice was emitted. -/
structure ResolveOut where
  path : String
  deprecationEmitted : Bool
deriving DecidableEq

/-- Addon.resolvePath: the deprecated ember-addon-main field first
(with a deprecation notice), else the main of the ember-addon manifest
object — a TypeError when that object is absent — else index.js;
extension defaulted, resolved against the addon directory. -/
def resolvePath (ref : AddonRef) : Except JsError ResolveOut :=
  if truthyStr ref.pkg.emberAddonMain then
    Except.ok
      { path := pathResolve ref.path (withJsExt (ref.pkg.emberAddonMain.getD ""))
        deprecationEmitted := true }
  else
    match ref.pkg.emberAddon with
    | none => Except.error (JsError.typeError "Cannot read property main of undefined")
    | some ea =>
      Except.ok
        { path := pathResolve ref.path
            (withJsExt (if truthyStr ea.main then ea.main.getD "" else "index.js"))
          deprecationEmitted := false }

/-- What require of the entry file evaluates to: a constructor function
(with an optional root already on its prototype) or a plain override
object. -/
inductive LoadedModule where
  | func (protoRoot : Option String)
  | plainObj (name : Option String) (root : Option String)
deriving DecidableEq

/-- What Addon.lookup returns: always a constructor, either the loaded
function itself (root defaulted) or Addon.extend of a property object. -/
inductive LookupResult where
  | direct (protoRoot : String)
  | extended (name : Option String) (root : String)
deriving DecidableEq

/-- Filesystem and module loader as Addon.lookup sees them. -/
structure LookupEnv where
  fileExists : String → Bool
  requireModule : String → LoadedModule

/-- Addon.lookup: resolve the entry path; when the file exists load it
and wrap per its shape, otherwise synthesize the generated addon
definition named after the package, rooted at the entry directory. -/
def lookupAddon (env : LookupEnv) (ref : AddonRef) :
    Except JsError LookupResult :=
  match resolvePath ref with
  | Except.error e => Except.error e
  | Except.ok out =>
    let modulePath := out.path
    let moduleDir := dirnameStr modulePath
    if env.fileExists modulePath then
      match env.requireModule modulePath with
      | LoadedModule.func protoRoot =>
        Except.ok (LookupResult.direct
          (if truthyStr protoRoot then protoRoot.getD "" else moduleDir))
      | LoadedModule.plainObj n r =>
        Except.ok (LookupResult.extended n (r.getD moduleDir))
    else
      Except.ok (LookupResult.extended
        (some ("(generated " ++ ref.pkg.name ++ " addon)")) moduleDir)

/-- The whitelist effect of one compileAddon call (proved equal to the
importWhitelist of the returned app in the C1 theorem). -/
def wlStep (env : Env) (a : AddonState) (w : WL) : WL :=
  if (includedModules env a).length = 0 then w
  else assignList w (includedModules env a)

/-- The whitelist after a sequential pass calling each addon's
compileAddon in order. -/
def wlPass (env : Env) (addons : List AddonState) (w : WL) : WL :=
  addons.foldl (fun acc a => wlStep env a acc) w

/-! Helper lemmas about the association-list object model. -/

theorem strEqOfData {a b : String} (h : a.data = b.data) : a = b := by
  cases a
  cases b
  exact congrArg String.mk h

theorem strAppendAssoc (a b c : String) : (a ++ b) ++ c = a ++ (b ++ c) := by
  apply strEqOfData
  simp [String.data_append, List.append_assoc]

theorem strCancelLeft {a b c : String} : (a ++ b = a ++ c) ↔ b = c := by
  constructor
  · intro h
    apply strEqOfData
    have h2 := congrArg String.data h
    simp only [String.data_append] at h2
    exact List.append_cancel_left h2
  · intro h
    rw [h]

theorem slashKey_inj (mn s t : String) :
    (mn ++ "/" ++ s = mn ++ "/" ++ t) ↔ s = t := by
  rw [strAppendAssoc, strAppendAssoc, strCancelLeft, strCancelLeft]

theorem idxKey (mn : String) : mn ++ "/index" = mn ++ "/" ++ "index" := by
  have h : ("/index" : String) = "/" ++ "index" := rfl
  rw [strAppendAssoc, ← h]

theorem ne_slashKey (mn st : String) : mn ≠ mn ++ "/" ++ st := by
  intro h
  have h2 : mn.data.length = ((mn ++ "/") ++ st).data.length := by rw [← h]
  simp only [String.data_append, List.length_append] at h2
  have h3 : ("/" : String).data.length = 1 := rfl
  rw [h3] at h2
  omega

theorem normalizeName_ne_empty {s : String} (h : s ≠ "") :
    normalizeName s ≠ "" := by
  intro h2
  apply h
  have h3 : (normalizeName s).data = [] := by rw [h2]
  unfold normalizeName at h3
  simp only [String.mk] at h3
  have h4 : s.data = [] := List.map_eq_nil_iff.mp h3
  apply strEqOfData
  simpa using h4

theorem wlLookup_assignEntry (w : WL) (k : String) (v : List String)
    (k' : String) :
    wlLookup (assignEntry w k v) k' =
      if k = k' then some v else wlLookup w k' := by
  induction w with
  | nil => simp [assignEntry, wlLookup]
  | cons p rest ih =>
    obtain ⟨k1, v1⟩ := p
    by_cases h1 : k1 = k
    · subst h1
      by_cases h2 : k1 = k'
      · simp [assignEntry, wlLookup, h2]
      · simp [assignEntry, wlLookup, h2]
    · by_cases h2 : k1 = k'
      · subst h2
        have : ¬(k = k1) := fun hh => h1 hh.symm
        simp [assignEntry, wlLookup, h1, this]
      · simp [assignEntry, wlLookup, h1, h2, ih]

theorem assignList_cons (w : WL) (p : String × List String) (src : WL) :
    assignList w (p :: src) = assignList (assignEntry w p.1 p.2) src := rfl

theorem wlLookup_assignList_isSome (src : WL) :
    ∀ (w : WL) (k : String),
      (wlLookup (assignList w src) k).isSome ↔
        ((wlLookup w k).isSome ∨ k ∈ src.map Prod.fst) := by
  induction src with
  | nil => intro w k; simp [assignList]
  | cons p rest ih =>
    intro w k
    rw [assignList_cons, ih, wlLookup_assignEntry]
    by_cases h : p.1 = k
    · simp [h]
    · have : ¬(k = p.1) := fun hh => h hh.symm
      simp [h, this]

theorem assignList_default_stable (src : WL) :
    ∀ (w : WL) (k : String),
      (∀ p ∈ src, p.2 = ["default"]) →
      wlLookup w k = some ["default"] →
      wlLookup (assignList w src) k = some ["default"] := by
  induction src with
  | nil =>
    intro w k _ h2
    simpa [assignList] using h2
  | cons p rest ih =>
    intro w k h1 h2
    rw [assignList_cons]
    apply ih
    · intro q hq
      exact h1 q (List.mem_cons_of_mem _ hq)
    · rw [wlLookup_assignEntry]
      by_cases h : p.1 = k
      · rw [if_pos h, h1 p (List.mem_cons_self _ _)]
      · rw [if_neg h]
        exact h2

theorem assignList_default_claims (src : WL) :
    ∀ (w : WL) (k : String),
      (∀ p ∈ src, p.2 = ["default"]) →
      k ∈ src.map Prod.fst →
      wlLookup (assignList w src) k = some ["default"] := by
  induction src with
  | nil =>
    intro w k _ h
    simp at h
  | cons p rest ih =>
    intro w k h1 h2
    rw [assignList_cons]
    by_cases hm : k ∈ rest.map Prod.fst
    · exact ih _ _ (fun q hq => h1 q (List.mem_cons_of_mem _ hq)) hm
    · have hk : k = p.1 := by
        simp only [List.map_cons, List.mem_cons] at h2
        tauto
      apply assignList_default_stable
      · intro q hq
        exact h1 q (List.mem_cons_of_mem _ hq)
      · rw [wlLookup_assignEntry, if_pos hk.symm, h1 p (List.mem_cons_self _ _)]

theorem assignEntry_values (w : WL) (k : String)
    (h : ∀ p ∈ w, p.2 = ["default"]) :
    ∀ p ∈ assignEntry w k ["default"], p.2 = ["default"] := by
  induction w with
  | nil =>
    intro p hp
    simp [assignEntry] at hp
    rw [hp]
  | cons q rest ih =>
    intro p hp
    obtain ⟨k1, v1⟩ := q
    by_cases h1 : k1 = k
    · simp only [assignEntry, if_pos h1, List.mem_cons] at hp
      rcases hp with hp | hp
      · rw [hp]
      · exact h p (List.mem_cons_of_mem _ hp)
    · simp only [assignEntry, if_neg h1, List.mem_cons] at hp
      rcases hp with hp | hp
      · rw [hp]
        exact h (k1, v1) (List.mem_cons_self _ _)
      · exact ih (fun q hq => h q (List.mem_cons_of_mem _ hq)) p hp

theorem buildIncluded_values_aux (mn : String) (stems : List String) :
    ∀ (acc : WL), (∀ p ∈ acc, p.2 = ["default"]) →
      ∀ p ∈ stems.foldl
        (fun w st => assignEntry w (mn ++ "/" ++ st) ["default"]) acc,
        p.2 = ["default"] := by
  induction stems with
  | nil =>
    intro acc h p hp
    exact h p hp
  | cons st rest ih =>
    intro acc h p hp
    rw [List.foldl_cons] at hp
    exact ih _ (assignEntry_values acc _ h) p hp

theorem wlLookup_build_aux (mn : String) (stems : List String) :
    ∀ (acc : WL) (k : String),
      wlLookup (stems.foldl
        (fun w st => assignEntry w (mn ++ "/" ++ st) ["default"]) acc) k =
        if ∃ st ∈ stems, k = mn ++ "/" ++ st then some ["default"]
        else wlLookup acc k := by
  induction stems with
  | nil => intro acc k; simp
  | cons st rest ih =>
    intro acc k
    rw [List.foldl_cons, ih, wlLookup_assignEntry]
    by_cases h1 : ∃ s ∈ rest, k = mn ++ "/" ++ s
    · rw [if_pos h1, if_pos]
      rw [List.exists_mem_cons_iff]
      exact Or.inr h1
    · by_cases h2 : mn ++ "/" ++ st = k
      · rw [if_neg h1, if_pos h2, if_pos]
        rw [List.exists_mem_cons_iff]
        exact Or.inl h2.symm
      · rw [if_neg h1, if_neg h2, if_neg]
        rw [List.exists_mem_cons_iff]
        rintro (h3 | h3)
        · exact h2 h3.symm
        · exact h1 h3

theorem buildIncluded_values (mn : String) (stems : List String) :
    ∀ p ∈ buildIncluded mn stems, p.2 = ["default"] := by
  unfold buildIncluded
  exact buildIncluded_values_aux mn stems [] (by intro p hp; simp at hp)

theorem wlLookup_buildIncluded (mn : String) (stems : List String)
    (k : String) :
    wlLookup (buildIncluded mn stems) k =
      if ∃ st ∈ stems, k = mn ++ "/" ++ st then some ["default"] else none := by
  unfold buildIncluded
  rw [wlLookup_build_aux]
  simp [wlLookup]

theorem includedModules_values (env : Env) (a : AddonState) :
    ∀ p ∈ includedModules env a, p.2 = ["default"] := by
  unfold includedModules
  split
  · exact assignEntry_values _ _ (buildIncluded_values _ _)
  · exact buildIncluded_values _ _

theorem wlLookup_includedModules (env : Env) (a : AddonState) (k : String) :
    wlLookup (includedModules env a) k =
      if (∃ st ∈ matchedStems env a, k = moduleNamePure a ++ "/" ++ st)
          ∨ (k = moduleNamePure a ∧ "index" ∈ matchedStems env a)
      then some ["default"] else none := by
  unfold includedModules
  have hbase : ∀ k' : String,
      wlLookup (buildIncluded (moduleNamePure a) (matchedStems env a)) k' =
        if ∃ st ∈ matchedStems env a, k' = moduleNamePure a ++ "/" ++ st
        then some ["default"] else none :=
    fun k' => wlLookup_buildIncluded _ _ k'
  have hidx : (wlLookup (buildIncluded (moduleNamePure a) (matchedStems env a))
        (moduleNamePure a ++ "/index")).isSome ↔
        "index" ∈ matchedStems env a := by
    rw [hbase]
    by_cases h : ∃ st ∈ matchedStems env a,
        moduleNamePure a ++ "/index" = moduleNamePure a ++ "/" ++ st
    · rw [if_pos h]
      obtain ⟨st, hst, he⟩ := h
      rw [idxKey] at he
      have : st = "index" := ((slashKey_inj _ _ _).mp he).symm
      subst this
      simp [hst]
    · rw [if_neg h]
      simp only [Option.isSome_none, Bool.false_eq_true, false_iff]
      intro hmem
      exact h ⟨"index", hmem, idxKey _⟩
  by_cases hi : "index" ∈ matchedStems env a
  · rw [if_pos (hidx.mpr hi)]
    rw [wlLookup_assignEntry]
    by_cases hk : moduleNamePure a = k
    · rw [if_pos hk, if_pos (Or.inr ⟨hk.symm, hi⟩)]
    · rw [if_neg hk, hbase]
      have : ¬(k = moduleNamePure a ∧ "index" ∈ matchedStems env a) :=
        fun hh => hk hh.1.symm
      by_cases h2 : ∃ st ∈ matchedStems env a, k = moduleNamePure a ++ "/" ++ st
      · rw [if_pos h2, if_pos (Or.inl h2)]
      · rw [if_neg h2, if_neg]
        rintro (h3 | h3)
        · exact h2 h3
        · exact this h3
  · rw [if_neg]
    · rw [hbase]
      have hno : ¬(k = moduleNamePure a ∧ "index" ∈ matchedStems env a) :=
        fun hh => hi hh.2
      by_cases h2 : ∃ st ∈ matchedStems env a, k = moduleNamePure a ++ "/" ++ st
      · rw [if_pos h2, if_pos (Or.inl h2)]
      · rw [if_neg h2, if_neg]
        rintro (h3 | h3)
        · exact h2 h3
        · exact hno h3
    · rw [Option.isSome_iff_exists] at hidx ⊢
      intro ⟨v, hv⟩
      exact hi (hidx.mp ⟨v, hv⟩)

theorem wlPass_cons (env : Env) (a : AddonState) (addons : List AddonState)
    (w : WL) : wlPass env (a :: addons) w = wlPass env addons (wlStep env a w) :=
  rfl

theorem wlPass_append (env : Env) (l1 l2 : List AddonState) (w : WL) :
    wlPass env (l1 ++ l2) w = wlPass env l2 (wlPass env l1 w) := by
  simp [wlPass, List.foldl_append]

theorem wlStep_isSome_mono (env : Env) (a : AddonState) (w : WL) (k : String)
    (h : (wlLookup w k).isSome) : (wlLookup (wlStep env a w) k).isSome := by
  unfold wlStep
  split
  · exact h
  · exact (wlLookup_assignList_isSome _ _ _).mpr (Or.inl h)

theorem wlPass_isSome_mono (env : Env) (addons : List AddonState) :
    ∀ (w : WL) (k : String), (wlLookup w k).isSome →
      (wlLookup (wlPass env addons w) k).isSome := by
  induction addons with
  | nil => intro w k h; exact h
  | cons a rest ih =>
    intro w k h
    rw [wlPass_cons]
    exact ih _ _ (wlStep_isSome_mono env a w k h)

theorem wlStep_default_stable (env : Env) (a : AddonState) (w : WL) (k : String)
    (h : wlLookup w k = some ["default"]) :
    wlLookup (wlStep env a w) k = some ["default"] := by
  unfold wlStep
  split
  · exact h
  · exact assignList_default_stable _ _ _ (includedModules_values env a) h

theorem wlPass_default_stable (env : Env) (addons : List AddonState) :
    ∀ (w : WL) (k : String), wlLookup w k = some ["default"] →
      wlLookup (wlPass env addons w) k = some ["default"] := by
  induction addons with
  | nil => intro w k h; exact h
  | cons a rest ih =>
    intro w k h
    rw [wlPass_cons]
    exact ih _ _ (wlStep_default_stable env a w k h)

theorem wlStep_isSome_iff (env : Env) (a : AddonState) (w : WL) (k : String) :
    (wlLookup (wlStep env a w) k).isSome ↔
      ((wlLookup w k).isSome ∨ k ∈ (includedModules env a).map Prod.fst) := by
  unfold wlStep
  split
  · rename_i hz
    have : includedModules env a = [] := List.length_eq_zero.mp hz
    simp [this]
  · exact wlLookup_assignList_isSome _ _ _

theorem wlStep_claims (env : Env) (a : AddonState) (w : WL) (k : String)
    (h : k ∈ (includedModules env a).map Prod.fst) :
    wlLookup (wlStep env a w) k = some ["default"] := by
  unfold wlStep
  split
  · rename_i hz
    rw [List.length_eq_zero.mp hz] at h
    simp at h
  · exact assignList_default_claims _ _ _ (includedModules_values env a) h

theorem compileAddon_whitelist (env : Env) (a : AddonState) (app : AppState)
    (t : Tree) (r : Option Tree × AppState)
    (h : compileAddon env a app t = Except.ok r) :
    r.2.importWhitelist = wlStep env a app.importWhitelist ∧
      (r.1.isSome ↔ includedModules env a ≠ []) := by
  unfold compileAddon at h
  by_cases hz : (includedModules env a).length = 0
  · rw [if_pos hz] at h
    injection h with h
    subst h
    refine ⟨by simp [wlStep, hz], ?_⟩
    simp [List.length_eq_zero.mp hz]
  · rw [if_neg hz] at h
    cases htb : treeForBase env a "addon-templates" with
    | error e =>
      rw [htb] at h
      cases h
    | ok tt =>
      rw [htb] at h
      injection h with h
      subst h
      refine ⟨by simp [wlStep, hz], ?_⟩
      simp only [Option.isSome_some, true_iff]
      intro hnil
      exact hz (by rw [hnil]; rfl)

/-! Concrete instances used by the claim counterexamples and witnesses. -/

/-- An addon directory at /r/addon holding a single source file index.js. -/
def exC1Env : Env :=
  { isDev := false
    existsSync := fun _ => true
    globFiles := fun d => if d = "/r/addon" then [⟨"index", "js"⟩] else [] }

/-- An addon named m rooted at /r. -/
def exC1Addon : AddonState :=
  { name := "m"
    root := "/r"
    project := ⟨"p"⟩
    jsExtensions := ["js"]
    modulePrefix := none
    treePaths := fixedTreePaths
    treeForMethods := fixedTreeForMethods
    didRequiredBuildPackages := false }

/-- An owning app whose import whitelist already claims module m with an
export list other than the default one. -/
def exC1App : AppState :=
  { name := "app"
    importWhitelist := [("m", ["default", "extra"])]
    wrapInEval := false
    hinting := false
    jshintrcApp := "rc" }

/-- An addon-source directory with files foo.js, bar/baz.js, index.js. -/
def exC2Env : Env :=
  { isDev := false
    existsSync := fun _ => false
    globFiles := fun d =>
      if d = "/r2/addon" then [⟨"foo", "js"⟩, ⟨"bar/baz", "js"⟩, ⟨"index", "js"⟩]
      else [] }

/-- An addon with module name x. -/
def exC2Addon : AddonState :=
  { name := "x"
    root := "/r2"
    project := ⟨"p2"⟩
    jsExtensions := ["js"]
    modulePrefix := none
    treePaths := fixedTreePaths
    treeForMethods := fixedTreeForMethods
    didRequiredBuildPackages := false }

/-- An environment in which every directory exists. -/
def exC3Env : Env :=
  { isDev := true
    existsSync := fun _ => true
    globFiles := fun _ => [] }

/-- A plainly constructed addon for the treeFor counterexample. -/
def exC3Addon : AddonState :=
  { name := "c3"
    root := "/r3"
    project := ⟨"p3"⟩
    jsExtensions := ["js"]
    modulePrefix := none
    treePaths := fixedTreePaths
    treeForMethods := fixedTreeForMethods
    didRequiredBuildPackages := false }

/-- An owning app with hinting on. -/
def exC3App : AppState :=
  { name := "app3"
    importWhitelist := []
    wrapInEval := false
    hinting := true
    jshintrcApp := "rc3" }

/-- A freshly constructed addon named My Addon (no memoized prefix). -/
def exC7Addon : AddonState :=
  { name := "My Addon"
    root := "/r7"
    project := ⟨"p7"⟩
    jsExtensions := ["js"]
    modulePrefix := none
    treePaths := fixedTreePaths
    treeForMethods := fixedTreeForMethods
    didRequiredBuildPackages := false }

/-- The state addonInit (some y) /q [] z constructs. -/
def exC8State : AddonState :=
  { name := "y"
    root := "/q"
    project := ⟨"z"⟩
    jsExtensions := []
    modulePrefix := none
    treePaths := fixedTreePaths
    treeForMethods := fixedTreeForMethods
    didRequiredBuildPackages := false }

/-- A filesystem in which only the absolute directory /r9/addon exists
(the process working directory holds no addon entry). -/
def exC9Env : Env :=
  { isDev := true
    existsSync := fun p => p == "/r9/addon"
    globFiles := fun _ => [] }

/-- An addon rooted at /r9 whose addon-source directory exists. -/
def exC9Addon : AddonState :=
  { name := "x"
    root := "/r9"
    project := ⟨"p9"⟩
    jsExtensions := ["js"]
    modulePrefix := none
    treePaths := fixedTreePaths
    treeForMethods := fixedTreeForMethods
    didRequiredBuildPackages := false }

/-- An owning app with hinting on and a jshintrc path. -/
def exC9App : AppState :=
  { name := "app9"
    importWhitelist := []
    wrapInEval := false
    hinting := true
    jshintrcApp := "rc9" }

/-- A filesystem in which the relative path addon exists. -/
def wC9Env : Env :=
  { isDev := true
    existsSync := fun p => p == "addon"
    globFiles := fun _ => [] }

/-- The state addonInit (some wx) /rw [js] pw constructs. -/
def wC9State : AddonState :=
  { name := "wx"
    root := "/rw"
    project := ⟨"pw"⟩
    jsExtensions := ["js"]
    modulePrefix := none
    treePaths := fixedTreePaths
    treeForMethods := fixedTreeForMethods
    didRequiredBuildPackages := false }

/-! Claim theorems. -/

/-- C1: the claim that whitelist entries are never overwritten is false:
compileAddon merges includedModules() with lodash assign, which
overwrites the value at an existing key.  Starting from a whitelist in
which module m is already mapped to the export list [default, extra],
one successful (non-short-circuited) compileAddon call of an addon
providing module m leaves m mapped to [default]: the entry was
overwritten. -/
theorem C1_overwrite_counterexample :
    wlLookup exC1App.importWhitelist "m" = some ["default", "extra"] ∧
    (compileAddon exC1Env exC1Addon exC1App (Tree.src "t")).toOption.map
      (fun r => (r.1.isSome, wlLookup r.2.importWhitelist "m")) =
      some (true, some ["default"]) ∧
    (["default"] : List String) ≠ ["default", "extra"] :=
  ⟨by decide, by decide, by decide⟩

/-- C1 (amended): over any sequential pass of compileAddon calls, keys
of the owning app's import whitelist are only ever added, never
removed; an entry mapped to [default] — in particular every entry an
addon registers — keeps that value for the remainder of the pass, so
the first addon to register a module name owns it; on every
compileAddon call that returns, exactly the keys of that addon's
includedModules() are merged into the whitelist (the call produces a
bundle exactly when includedModules() is nonempty), but a pre-existing
entry with an export list other than [default] is overwritten to
[default] when a later addon includes the same module name. -/
theorem C1_whitelist_additive :
    (∀ (env : Env) (a : AddonState) (app : AppState) (t : Tree)
        (r : Option Tree × AppState),
      compileAddon env a app t = Except.ok r →
        r.2.importWhitelist = wlStep env a app.importWhitelist ∧
          (r.1.isSome ↔ includedModules env a ≠ []))
    ∧ (∀ (env : Env) (addons : List AddonState) (w : WL) (k : String),
        (wlLookup w k).isSome → (wlLookup (wlPass env addons w) k).isSome)
    ∧ (∀ (env : Env) (addons : List AddonState) (w : WL) (k : String),
        wlLookup w k = some ["default"] →
          wlLookup (wlPass env addons w) k = some ["default"])
    ∧ (∀ (env : Env) (a : AddonState) (w : WL) (k : String),
        (wlLookup (wlStep env a w) k).isSome ↔
          ((wlLookup w k).isSome ∨ k ∈ (includedModules env a).map Prod.fst))
    ∧ (∀ (env : Env) (pre : List AddonState) (a : AddonState)
        (post : List AddonState) (w : WL) (k : String),
        k ∈ (includedModules env a).map Prod.fst →
          wlLookup (wlPass env (pre ++ a :: post) w) k = some ["default"]) := by
  refine ⟨compileAddon_whitelist, ?_, ?_, wlStep_isSome_iff, ?_⟩
  · intro env addons w k h
    exact wlPass_isSome_mono env addons w k h
  · intro env addons w k h
    exact wlPass_default_stable env addons w k h
  · intro env pre a post w k hk
    rw [wlPass_append, wlPass_cons]
    exact wlPass_default_stable env post _ k (wlStep_claims env a _ k hk)

/-- C1 witness: the module m/index registered by the addon of the
counterexample environment ends the one-addon pass mapped to
[default]. -/
theorem C1_whitelist_additive_witness :
    wlLookup (wlPass exC1Env [exC1Addon] [("keep", ["default"])]) "m/index" =
      some ["default"] :=
  C1_whitelist_additive.2.2.2.2 exC1Env [] exC1Addon [] [("keep", ["default"])]
    "m/index" (by decide)

/-- C2: includedModules() maps exactly the js-matching files of the
addon-source directory to moduleName/stem with export list [default],
plus the bare moduleName alias exactly when a moduleName/index module
exists; on the concrete directory foo.js, bar/baz.js, index.js under
module name x it yields exactly the four advertised entries. -/
theorem C2_includedModules_spec :
    (∀ (env : Env) (a : AddonState) (k : String),
      wlLookup (includedModules env a) k =
        if (∃ st ∈ matchedStems env a, k = moduleNamePure a ++ "/" ++ st)
            ∨ (k = moduleNamePure a ∧ "index" ∈ matchedStems env a)
        then some ["default"] else none)
    ∧ includedModules exC2Env exC2Addon =
        [("x/foo", ["default"]), ("x/bar/baz", ["default"]),
         ("x/index", ["default"]), ("x", ["default"])] :=
  ⟨wlLookup_includedModules, by decide⟩

/-- C3 counterexample: treeFor of the unknown category bogus raises the
path.join TypeError instead of returning an empty composite. -/
theorem C3_unknown_category_counterexample :
    treeFor exC3Env exC3Addon exC3App "bogus" = Except.error pathJoinError ∧
    (treeFor exC3Env exC3Addon exC3App "bogus").toOption = none :=
  ⟨rfl, rfl⟩

/-- C3 (amended): for every category name with no treePaths entry,
treeFor raises the TypeError that path.join throws on the undefined
tree path (Node 0.10+), regardless of the directory contents, rather
than returning an empty composite. -/
theorem C3_unknown_category_raises :
    ∀ (env : Env) (a : AddonState) (app : AppState) (name : String),
      lookupStr a.treePaths name = none →
      treeFor env a app name = Except.error pathJoinError := by
  intro env a app name h
  unfold treeFor _treeFor
  rw [h]

/-- C3 witness: a second unknown category name on the same instance. -/
theorem C3_unknown_category_raises_witness :
    treeFor exC3Env exC3Addon exC3App "not-a-category" =
      Except.error pathJoinError :=
  C3_unknown_category_raises exC3Env exC3Addon exC3App "not-a-category"
    (by decide)

/-- C4 counterexample: with both manifest fields present, resolvePath
prefers the deprecated legacy field, not the current one as claimed:
the result is dir/legacy.js (with the deprecation notice), not
dir/main.js. -/
theorem C4_legacy_preference_counterexample :
    resolvePath ⟨⟨"pkgx", some "legacy", some ⟨some "main.js"⟩⟩, "/p"⟩ =
      Except.ok ⟨"/p/legacy.js", true⟩ ∧
    ("/p/legacy.js" : String) ≠ "/p/main.js" :=
  ⟨rfl, by decide⟩

/-- C4 (amended): resolvePath prefers the deprecated legacy manifest
field (emitting the deprecation notice) over the current one; when the
legacy field is falsy it reads the current manifest object — raising a
TypeError when that object is absent — using its main field when
truthy, else index.js; a js extension is appended exactly when the
resolved name lacks one, and the result is resolved against the addon
directory. -/
theorem C4_resolvePath_amended :
    (∀ ref : AddonRef, truthyStr ref.pkg.emberAddonMain = true →
      resolvePath ref = Except.ok
        ⟨pathResolve ref.path (withJsExt (ref.pkg.emberAddonMain.getD "")), true⟩)
    ∧ (∀ ref : AddonRef, truthyStr ref.pkg.emberAddonMain = false →
        ref.pkg.emberAddon = none → ∃ e, resolvePath ref = Except.error e)
    ∧ (∀ (ref : AddonRef) (ea : EmberAddonObj),
        truthyStr ref.pkg.emberAddonMain = false →
        ref.pkg.emberAddon = some ea → truthyStr ea.main = true →
        resolvePath ref = Except.ok
          ⟨pathResolve ref.path (withJsExt (ea.main.getD "")), false⟩)
    ∧ (∀ (ref : AddonRef) (ea : EmberAddonObj),
        truthyStr ref.pkg.emberAddonMain = false →
        ref.pkg.emberAddon = some ea → truthyStr ea.main = false →
        resolvePath ref = Except.ok ⟨joinPath ref.path "index.js", false⟩)
    ∧ (∀ s : String, hasExtname s = true → withJsExt s = s)
    ∧ (∀ s : String, hasExtname s = false → withJsExt s = s ++ ".js") := by
  refine ⟨?_, ?_, ?_, ?_, ?_, ?_⟩
  · intro ref h
    unfold resolvePath
    rw [if_pos h]
  · intro ref h1 h2
    unfold resolvePath
    rw [if_neg (by simp [h1]), h2]
    exact ⟨_, rfl⟩
  · intro ref ea h1 h2 h3
    unfold resolvePath
    rw [if_neg (by simp [h1]), h2]
    simp [h3]
  · intro ref ea h1 h2 h3
    unfold resolvePath
    rw [if_neg (by simp [h1]), h2]
    have hw : withJsExt "index.js" = "index.js" := rfl
    have hp : pathResolve ref.path "index.js" = joinPath ref.path "index.js" := rfl
    simp [h3, hw, hp]
  · intro s h
    unfold withJsExt
    rw [if_pos h]
  · intro s h
    unfold withJsExt
    rw [if_neg (by simp [h])]

/-- C4 witness: with only the legacy field the result is dir/lm.js with
the deprecation notice; with an empty current manifest object it is
dir/index.js without one. -/
theorem C4_resolvePath_amended_witness :
    resolvePath ⟨⟨"q", some "lm", none⟩, "/d"⟩ =
      Except.ok ⟨"/d/lm.js", true⟩ ∧
    resolvePath ⟨⟨"q", none, some ⟨none⟩⟩, "/d"⟩ =
      Except.ok ⟨"/d/index.js", false⟩ := by
  constructor
  · exact C4_resolvePath_amended.1 ⟨⟨"q", some "lm", none⟩, "/d"⟩ rfl
  · exact C4_resolvePath_amended.2.2.2.1 ⟨⟨"q", none, some ⟨none⟩⟩, "/d"⟩
      ⟨none⟩ rfl rfl rfl

/-- C5 counterexample: for a reference whose manifest has neither the
legacy field nor the current manifest object, lookup does not return a
constructor at all: path resolution raises a TypeError which lookup
propagates. -/
theorem C5_lookup_throws_counterexample :
    lookupAddon ⟨fun _ => false, fun _ => LoadedModule.func none⟩
      ⟨⟨"x", none, none⟩, "/p"⟩ =
      Except.error (JsError.typeError "Cannot read property main of undefined") :=
  rfl

/-- C5 (amended): for every addon reference whose entry-point
resolution succeeds, lookup returns a constructor (never an instance);
when additionally the resolved entry file does not exist, that
constructor is the synthesized generated addon named
(generated packageName addon) whose root is the entry point's
containing directory. -/
theorem C5_lookup_amended :
    (∀ (env : LookupEnv) (ref : AddonRef) (out : ResolveOut),
      resolvePath ref = Except.ok out → env.fileExists out.path = false →
        lookupAddon env ref = Except.ok (LookupResult.extended
          (some ("(generated " ++ ref.pkg.name ++ " addon)"))
          (dirnameStr out.path)))
    ∧ (∀ (env : LookupEnv) (ref : AddonRef) (out : ResolveOut),
        resolvePath ref = Except.ok out →
          ∃ c, lookupAddon env ref = Except.ok c) := by
  constructor
  · intro env ref out h hf
    unfold lookupAddon
    rw [h]
    simp [hf]
  · intro env ref out h
    unfold lookupAddon
    rw [h]
    by_cases hf : env.fileExists out.path
    · cases hm : env.requireModule out.path with
      | func pr =>
        exact ⟨LookupResult.direct
          (if truthyStr pr = true then pr.getD "" else dirnameStr out.path),
          by simp [hf, hm]⟩
      | plainObj n r =>
        exact ⟨LookupResult.extended n (r.getD (dirnameStr out.path)),
          by simp [hf, hm]⟩
    · exact ⟨LookupResult.extended
        (some ("(generated " ++ ref.pkg.name ++ " addon)"))
        (dirnameStr out.path),
        by simp [hf]⟩

/-- C5 witness: a resolvable reference whose entry file is missing
yields the generated constructor. -/
theorem C5_lookup_amended_witness :
    lookupAddon ⟨fun _ => false, fun _ => LoadedModule.func none⟩
      ⟨⟨"pkg", some "m.js", none⟩, "/d"⟩ =
      Except.ok (LookupResult.extended (some "(generated pkg addon)") "/d") :=
  C5_lookup_amended.1 ⟨fun _ => false, fun _ => LoadedModule.func none⟩
    ⟨⟨"pkg", some "m.js", none⟩, "/d"⟩ ⟨"/d/m.js", true⟩ rfl rfl

/-- C6: construction fails with the configuration error exactly when
the name attribute is absent or empty, for every project argument; a
non-empty name constructs an instance without that error. -/
theorem C6_construction_name_required :
    (∀ (protoName : Option String) (root : String) (exts : List String)
        (project : Project),
      (∃ e, addonInit protoName root exts project = Except.error e) ↔
        (protoName = none ∨ protoName = some ""))
    ∧ (∀ (root : String) (exts : List String) (project : Project)
        (n : String), n ≠ "" →
        ∃ s, addonInit (some n) root exts project = Except.ok s) := by
  constructor
  · intro pn root exts project
    cases pn with
    | none => simp [addonInit, truthyStr]
    | some n =>
      by_cases hn : n = ""
      · subst hn
        simp [addonInit, truthyStr]
      · simp [addonInit, truthyStr, hn]
  · intro root exts project n hn
    exact ⟨{ name := n, root := root, project := project,
             jsExtensions := exts, modulePrefix := none,
             treePaths := fixedTreePaths,
             treeForMethods := fixedTreeForMethods,
             didRequiredBuildPackages := false },
      by simp [addonInit, truthyStr, hn]⟩

/-- C6 witness: a non-empty name constructs. -/
theorem C6_construction_name_required_witness :
    ∃ s, addonInit (some "x") "/r" ["js"] ⟨"p"⟩ = Except.ok s :=
  C6_construction_name_required.2 "/r" ["js"] ⟨"p"⟩ "x" (by decide)

/-- C7: on a freshly constructed addon (no memoized prefix) with a
non-empty name, the first moduleName() call returns the lowercased,
whitespace-to-hyphen slug of the name, and every later call returns the
same value and leaves the state unchanged even when the name attribute
is mutated between calls. -/
theorem C7_moduleName_memoized (a : AddonState)
    (h1 : a.modulePrefix = none) (h2 : a.name ≠ "") :
    (moduleNameCall a).1 = normalizeName a.name ∧
    ∀ n : String,
      (moduleNameCall { (moduleNameCall a).2 with name := n }).1 =
        (moduleNameCall a).1 ∧
      (moduleNameCall { (moduleNameCall a).2 with name := n }).2 =
        { (moduleNameCall a).2 with name := n } := by
  have hfirst : moduleNameCall a =
      (normalizeName a.name,
        { a with modulePrefix := some (normalizeName a.name) }) := by
    unfold moduleNameCall
    rw [h1]
    rfl
  have hp : normalizeName a.name ≠ "" := normalizeName_ne_empty h2
  have htr : truthyStr (some (normalizeName a.name)) = true := by
    simp [truthyStr, hp]
  refine ⟨by rw [hfirst], ?_⟩
  intro n
  rw [hfirst]
  constructor
  · unfold moduleNameCall
    simp [htr]
  · unfold moduleNameCall
    simp [htr]

/-- C7 witness: name My Addon slugs to my-addon on the first call and
the value survives a rename of the instance. -/
theorem C7_moduleName_memoized_witness :
    (moduleNameCall exC7Addon).1 = "my-addon" ∧
    (moduleNameCall
      { (moduleNameCall exC7Addon).2 with name := "Renamed" }).1 =
      "my-addon" := by
  have h := C7_moduleName_memoized exC7Addon rfl (by decide)
  refine ⟨?_, ?_⟩
  · rw [h.1]
    decide
  · rw [(h.2 "Renamed").1, h.1]
    decide

/-- C8 counterexample: a freshly constructed addon has 9 treePaths
categories, not 7 as claimed. -/
theorem C8_nine_categories_counterexample :
    (addonInit (some "x") "/r" ["js"] ⟨"p"⟩).toOption.map
      (fun s => s.treePaths.length) = some 9 ∧ (9 : Nat) ≠ 7 :=
  ⟨by decide, by decide⟩

/-- C8 (amended): every addon instance, immediately after construction,
has treePaths equal to the one fixed mapping of exactly 9 category
names (app, styles, templates, addon, addon-styles, addon-templates,
vendor, test-support, public) to the relative paths app, app/styles,
app/templates, addon, addon/styles, addon/templates, vendor,
test-support, public; the mapping is identical for every instance and
never depends on the project argument. -/
theorem C8_treePaths_amended :
    (∀ (protoName : Option String) (root : String) (exts : List String)
        (project : Project) (s : AddonState),
      addonInit protoName root exts project = Except.ok s →
        s.treePaths = fixedTreePaths)
    ∧ fixedTreePaths.length = 9
    ∧ fixedTreePaths.map Prod.fst =
        ["app", "styles", "templates", "addon", "addon-styles",
         "addon-templates", "vendor", "test-support", "public"]
    ∧ fixedTreePaths.map Prod.snd =
        ["app", "app/styles", "app/templates", "addon", "addon/styles",
         "addon/templates", "vendor", "test-support", "public"] := by
  refine ⟨?_, by decide, by decide, by decide⟩
  intro pn root exts project s h
  unfold addonInit at h
  split at h
  · injection h with h
    subst h
    rfl
  · cases h

/-- C8 witness: a concrete construction whose treePaths is the fixed
mapping. -/
theorem C8_treePaths_amended_witness :
    addonInit (some "y") "/q" [] ⟨"z"⟩ = Except.ok exC8State ∧
    exC8State.treePaths = fixedTreePaths :=
  ⟨rfl, C8_treePaths_amended.1 (some "y") "/q" [] ⟨"z"⟩ exC8State rfl⟩

/-- C9 counterexample: the addon-source directory of the addon exists
(root/addon), yet jshintAddonTree returns nothing, because the code
checks the RELATIVE path addon (against the process working directory)
instead of joining it onto the addon root. -/
theorem C9_relative_path_counterexample :
    exC9Env.existsSync (joinPath exC9Addon.root "addon") = true ∧
    jshintAddonTree exC9Env exC9Addon exC9App = none :=
  ⟨by decide, rfl⟩

/-- C9 (amended): on a constructed addon, jshintAddonTree checks the
literal relative path addon (interpreted against the process working
directory, not the addon root): it returns nothing when that relative
path does not exist, and otherwise lints the js-glob files beneath it
with the owning app's jshintrc, relocated to a tree rooted at
name/tests/ (the raw name attribute, not the normalized moduleName). -/
theorem C9_jshint_amended :
    ∀ (env : Env) (protoName : Option String) (root : String)
      (exts : List String) (project : Project) (s : AddonState)
      (app : AppState),
      addonInit protoName root exts project = Except.ok s →
      (env.existsSync "addon" = false → jshintAddonTree env s app = none) ∧
      (env.existsSync "addon" = true →
        jshintAddonTree env s app = some (Tree.pick
          (Tree.jshint (addonJsFiles s (Tree.src "addon")) app.jshintrcApp
            "JSHint - Addon")
          "/" (s.name ++ "/tests/") none false)) := by
  intro env pn root exts project s app h
  have hs : s.treePaths = fixedTreePaths := by
    unfold addonInit at h
    split at h
    · injection h with h
      subst h
      rfl
    · cases h
  have hlook : (lookupStr s.treePaths "addon").getD "" = "addon" := by
    rw [hs]
    rfl
  constructor
  · intro hfalse
    unfold jshintAddonTree
    rw [hlook, hfalse]
    rfl
  · intro htrue
    unfold jshintAddonTree
    rw [hlook, htrue]
    rfl

/-- C9 witness: when the relative path addon exists, the lint tree is
produced, rooted at the raw name. -/
theorem C9_jshint_amended_witness :
    jshintAddonTree wC9Env wC9State exC9App = some (Tree.pick
      (Tree.jshint (addonJsFiles wC9State (Tree.src "addon"))
        exC9App.jshintrcApp "JSHint - Addon")
      "/" (wC9State.name ++ "/tests/") none false) :=
  (C9_jshint_amended wC9Env (some "wx") "/rw" ["js"] ⟨"pw"⟩ wC9State exC9App
    rfl).2 rfl

/-- C10: compileStyles on a present styles tree returns the
CSS-preprocessed tree with exactly one file renamed, from the owning
app's name (slash appName.css) to the addon's (slash addonName.css);
on an absent tree it returns nothing. -/
theorem C10_compileStyles_spec :
    ∀ (a : AddonState) (app : AppState),
      compileStyles a app none = none ∧
      ∀ t : Tree, compileStyles a app (some t) =
        some (Tree.moveFile (Tree.preCss t "/" "/")
          ("/" ++ app.name ++ ".css") ("/" ++ a.name ++ ".css")) := by
  intro a app
  exact ⟨rfl, fun t => rfl⟩

end EmberAddon
